import Mathlib

/-!
Shallow embedding of `src/main.py` (a FastAPI bulk S3 uploader) and proofs of
the specified properties.

Modelling conventions:
* timestamps are `Nat` (the code only ever formats `datetime.now()`, never
  computes with it);
* a Python filename is `Option String` (`UploadFile.filename` may be `None`);
  Python truthiness of a filename (`if not file.filename`) is `pyFalsyName`;
* Python dicts keyed by filename / upload id are association lists with
  insert-or-replace assignment (`filesSet` / `tableSet`), matching dict
  semantics: replacing an existing key keeps its position, a new key is
  appended;
* the Python `int` subtraction in `get_upload_status` is `Int` subtraction
  (it can in principle go negative, so `Nat` truncation would be unfaithful);
* the worker coroutine `process_upload` is embedded as a trace function over
  an explicit scenario datatype enumerating which awaited operation fails,
  reflecting the `try/except/finally` and context-manager control flow of
  lines 55-101 of `main.py`.
-/

namespace S3Upload

/-- Status values actually written by the code: `'uploading'`, `'completed'`,
`'failed'` (`main.py` lines 67, 82, 90). -/
inductive FileStatus
  | uploading
  | completed
  | failed
deriving DecidableEq, Repr

/-- One per-file status record, as built by `process_upload`:
`{'status': ..., 'start_time': ..., 'end_time'?: ..., 'error'?: ...}`. -/
structure FileRecord where
  status : FileStatus
  start_time : Nat
  end_time : Option Nat
  error : Option String
deriving DecidableEq, Repr

/-- A Python `UploadFile.filename`: may be `None` (missing). -/
abbrev Filename := Option String

/-- Python truthiness test `not file.filename`: true for `None` and `''`. -/
def pyFalsyName : Filename → Bool
  | none => true
  | some s => s = ""

/-- Python `f"...{file.filename}..."` stringification (`str(None) = "None"`). -/
def pyStr : Filename → String
  | none => "None"
  | some s => s

/-- The `'files'` dict of a batch: filename → record. -/
abbrev FilesMap := List (Filename × FileRecord)

/-- Python dict assignment `files[k] = v`: replace in place if the key is
present, otherwise append. -/
def filesSet : FilesMap → Filename → FileRecord → FilesMap
  | [], k, v => [(k, v)]
  | (k', v') :: rest, k, v =>
      if k' = k then (k, v) :: rest else (k', v') :: filesSet rest k v

/-- Python dict lookup `files[k]` (as an `Option`). -/
def filesGet : FilesMap → Filename → Option FileRecord
  | [], _ => none
  | (k', v') :: rest, k => if k' = k then some v' else filesGet rest k

/-- The keys of a files dict. -/
def filesKeys (m : FilesMap) : List Filename := m.map Prod.fst

/-- One batch entry of `upload_status`:
`{'total_files': ..., 'start_time': ..., 'files': {...}}` (lines 110-114). -/
structure Batch where
  total_files : Nat
  start_time : Nat
  files : FilesMap
deriving DecidableEq, Repr

/-- The process-wide `upload_status` dict: upload id → batch. -/
abbrev StatusTable := List (String × Batch)

/-- Python dict assignment `upload_status[k] = v`. -/
def tableSet : StatusTable → String → Batch → StatusTable
  | [], k, v => [(k, v)]
  | (k', v') :: rest, k, v =>
      if k' = k then (k, v) :: rest else (k', v') :: tableSet rest k v

/-- Python dict lookup `upload_status[k]` (as an `Option`); `upload_id in
upload_status` is `(tableGet t k).isSome`. -/
def tableGet : StatusTable → String → Option Batch
  | [], _ => none
  | (k', v') :: rest, k => if k' = k then some v' else tableGet rest k

/-- Embeds `sum(1 for f in status['files'].values() if f['status'] == s)`
(lines 133-134). -/
def countStatus (m : FilesMap) (s : FileStatus) : Nat :=
  (m.filter (fun p => p.2.status = s)).length

/-- The JSON body returned by `get_upload_status` (lines 136-143). -/
structure StatusResponse where
  upload_id : String
  total_files : Nat
  completed : Nat
  failed : Nat
  in_progress : Int
  files : FilesMap
deriving DecidableEq, Repr

/-- Endpoint `GET /status/...` (lines 127-143): 404 with detail
`"Upload ID not found"` when the id is not a key of `upload_status`,
otherwise the computed aggregate counts. -/
def get_upload_status (table : StatusTable) (upload_id : String) :
    Except (Nat × String) StatusResponse :=
  match tableGet table upload_id with
  | none => .error (404, "Upload ID not found")
  | some status =>
      let completed := countStatus status.files .completed
      let failed := countStatus status.files .failed
      .ok { upload_id := upload_id
            total_files := status.total_files
            completed := completed
            failed := failed
            in_progress := (status.total_files : Int) - (completed + failed)
            files := status.files }

/-- One file of a multipart upload request: `UploadFile` carries a filename
(possibly `None`), a declared content type (possibly `None`), and a declared
size in bytes. Note that `main.py` never reads the size. -/
structure UploadFileIn where
  filename : Filename
  content_type : Option String
  size : Nat
deriving DecidableEq, Repr

/-- Constant `MAX_CONCURRENT_UPLOADS = 3` (line 38). -/
def MAX_CONCURRENT_UPLOADS : Nat := 3

/-- Modelled from the spec: the spec names a fixed per-file size limit with
default 50 MiB. No such limit appears anywhere in `src/main.py`; this
constant exists only so that the corresponding claim can be stated. -/
def MAX_FILE_SIZE_SPEC : Nat := 50 * 1024 * 1024

/-- Embeds `datetime.now().strftime('%Y%m%d_%H%M%S')` (line 108): a string derived
from the current time at second granularity. We model the time as the
second count `now`; the formatting is injective on distinct seconds and
yields equal ids for calls within the same second, which is all the code
relies on. -/
def genUploadId (now : Nat) : String := toString now

/-- Embeds `file.content_type or 'application/octet-stream'` (line 77): Python `or`
takes the right operand when the left is falsy, i.e. `None` or `''`. -/
def effectiveContentType : Option String → String
  | none => "application/octet-stream"
  | some s => if s = "" then "application/octet-stream" else s

/-- Embeds the key layout of line 72: upload id, a slash, then the filename. -/
def s3Key (upload_id : String) (name : Filename) : String :=
  upload_id ++ "/" ++ pyStr name

/-- The record written at line 66-69:
`{'status': 'uploading', 'start_time': ...}`. -/
def uploadingRecord (t1 : Nat) : FileRecord :=
  { status := .uploading, start_time := t1, end_time := none, error := none }

/-- Observable actions of one run of `process_upload`, in program order. -/
inductive Event
  | acquire
  | createTemp
  | readFile
  | writeTemp
  | recordUploading
  | storePut (key : String) (contentType : String)
  | recordCompleted
  | release
  | recordFailed (err : String)
  | unlinkTemp
deriving DecidableEq, Repr

/-- Which awaited/fallible operation of `process_upload` fails, if any.
`ok` is the run where every operation succeeds (`upload_file_to_s3` returns
`True` or raises; it cannot return `False`). -/
inductive WorkerScenario
  | ok
  | tempCreateFails (msg : String)
  | readFails (msg : String)
  | writeFails (msg : String)
  | storeFails (msg : String)
deriving DecidableEq, Repr

/-- Whether `process_upload` returns normally or lets an exception escape. -/
inductive WorkerOutcome
  | normal
  | raises (exn : String)
deriving DecidableEq, Repr

/-- The result of one run of `process_upload`: its ordered event trace, the
batch's files dict after the run, and whether an exception escaped. -/
structure WorkerRun where
  events : List Event
  filesAfter : FilesMap
  outcome : WorkerOutcome
deriving DecidableEq, Repr

/-- What the `except` block (lines 87-93) does when the exception `msg` is
handled with the files dict in state `m`:
`upload_status[upload_id]['files'][file.filename].update({'status': 'failed',
'error': str(e), 'end_time': ...})`. If `file.filename` is not a key of the
dict (the exception arose before line 66 ran), this indexing itself raises
`KeyError`, which escapes the worker; otherwise the record at that key is
updated in place. -/
def handleFailure (m : FilesMap) (name : Filename) (msg : String) (t2 : Nat) :
    FilesMap × Option Event × WorkerOutcome :=
  match filesGet m name with
  | none => (m, none, .raises "KeyError")
  | some r =>
      (filesSet m name { r with status := .failed, error := some msg, end_time := some t2 },
       some (.recordFailed msg), .normal)

/-- Worker `process_upload` (lines 55-101), embedded as a trace function.

Control flow of the source, reflected per scenario:
* the whole body sits in `try ... except Exception ... finally`;
* `async with upload_semaphore` acquires on entry and releases on every
  exit, including exception unwinding — so on a failing path the `release`
  happens before the `except` block runs;
* `with tempfile.NamedTemporaryFile(delete=False) as temp_file` binds
  `temp_file` before its body runs, so the `finally` unlinks the buffer iff
  temp-file creation itself succeeded;
* on the success path the `'uploading'` record (line 66) is written, the
  store is invoked, and the record is updated to `'completed'` before the
  semaphore is released;
* the `finally` cleanup is itself wrapped in `try/except`, so `unlinkTemp`
  never raises.

The declared `file.size` is never consulted anywhere in this function,
matching the source, which contains no size check. -/
def process_upload (file : UploadFileIn) (upload_id : String)
    (filesBefore : FilesMap) (t1 t2 : Nat) : WorkerScenario → WorkerRun
  | .ok =>
      let upRec := uploadingRecord t1
      let m1 := filesSet filesBefore file.filename upRec
      let doneRec := { upRec with status := .completed, end_time := some t2 }
      { events := [.acquire, .createTemp, .readFile, .writeTemp, .recordUploading,
                   .storePut (s3Key upload_id file.filename)
                     (effectiveContentType file.content_type),
                   .recordCompleted, .release, .unlinkTemp]
        filesAfter := filesSet m1 file.filename doneRec
        outcome := .normal }
  | .tempCreateFails msg =>
      let (m', ev?, out) := handleFailure filesBefore file.filename msg t2
      { events := [.acquire, .release] ++ ev?.toList
        filesAfter := m'
        outcome := out }
  | .readFails msg =>
      let (m', ev?, out) := handleFailure filesBefore file.filename msg t2
      { events := [.acquire, .createTemp, .release] ++ ev?.toList ++ [.unlinkTemp]
        filesAfter := m'
        outcome := out }
  | .writeFails msg =>
      let (m', ev?, out) := handleFailure filesBefore file.filename msg t2
      { events := [.acquire, .createTemp, .readFile, .release] ++ ev?.toList ++ [.unlinkTemp]
        filesAfter := m'
        outcome := out }
  | .storeFails msg =>
      let upRec := uploadingRecord t1
      let m1 := filesSet filesBefore file.filename upRec
      let (m', ev?, out) := handleFailure m1 file.filename msg t2
      { events := [.acquire, .createTemp, .readFile, .writeTemp, .recordUploading,
                   .storePut (s3Key upload_id file.filename)
                     (effectiveContentType file.content_type),
                   .release] ++ ev?.toList ++ [.unlinkTemp]
        filesAfter := m'
        outcome := out }

/-- The `(key, contentType)` pairs of the store invocations in a trace. -/
def storePuts (es : List Event) : List (String × String) :=
  es.filterMap (fun e => match e with | .storePut k c => some (k, c) | _ => none)

/-- The files of a request for which the dispatcher schedules a worker:
`for file in files: if not file.filename: continue; add_task(...)`
(lines 116-119). -/
def scheduledWorkers (files : List UploadFileIn) : List UploadFileIn :=
  files.filter (fun f => !pyFalsyName f.filename)

/-- The filenames the scheduled workers will use as record keys. -/
def scheduledNames (files : List UploadFileIn) : List Filename :=
  (scheduledWorkers files).map (fun f => f.filename)

/-- The JSON body returned by `upload_files` (lines 121-125). -/
structure UploadResponse where
  message : String
  upload_id : String
  status_endpoint : String
deriving DecidableEq, Repr

/-- Result of a dispatch: the updated table, the workers scheduled
(fire-and-forget), and the immediate response. -/
structure DispatchResult where
  table : StatusTable
  scheduled : List UploadFileIn
  response : UploadResponse
deriving DecidableEq, Repr

/-- Endpoint `POST /upload/` (lines 103-125): generate the id from the current
second, assign a fresh batch entry (`upload_status[upload_id] = {...}` —
a plain dict assignment, replacing any existing entry under that id),
schedule one worker per non-falsy filename, return immediately. -/
def upload_files (table : StatusTable) (files : List UploadFileIn) (now : Nat) :
    DispatchResult :=
  let upload_id := genUploadId now
  { table := tableSet table upload_id
      { total_files := files.length, start_time := now, files := [] }
    scheduled := scheduledWorkers files
    response := { message := "Processing " ++ toString files.length ++ " files"
                  upload_id := upload_id
                  status_endpoint := "/status/" ++ upload_id } }

/-- Externally observable operations against the process-wide table: a
dispatch (at second `now`), a status poll, or a background worker writing a
record into its batch's files dict. -/
inductive ApiCall
  | upload (files : List UploadFileIn) (now : Nat)
  | statusQuery (id : String)
  | workerWrite (id : String) (name : Filename) (r : FileRecord)

/-- Effect of one call on the table. A status poll never mutates. A worker
write `upload_status[upload_id]['files'][name] = r` mutates the entry in
place; workers only ever hold ids a dispatch created, so the `none` branch
is unreachable in any real interleaving and is a no-op. -/
def applyCall (t : StatusTable) : ApiCall → StatusTable
  | .upload files now => (upload_files t files now).table
  | .statusQuery _ => t
  | .workerWrite id name r =>
      match tableGet t id with
      | none => t
      | some b => tableSet t id { b with files := filesSet b.files name r }

/-- The table after a sequence of calls, starting from the empty initial
`upload_status = {}` (line 40). -/
def runCalls (calls : List ApiCall) : StatusTable :=
  calls.foldl applyCall []

/-- The upload ids produced by the dispatches in a call sequence. -/
def createdIds (calls : List ApiCall) : List String :=
  calls.filterMap (fun c => match c with
    | .upload _ now => some (genUploadId now)
    | _ => none)

/-- Phase of one worker with respect to the gate: not yet admitted,
in transit (between buffering start and terminal record), or finished. -/
inductive Phase
  | idle
  | inTransit
  | done
deriving DecidableEq, Repr

/-- Gate state: free slots of `upload_semaphore` plus the phase of each
scheduled worker. -/
structure SchedState where
  sem : Nat
  phases : List Phase
deriving DecidableEq, Repr

/-- Number of workers currently in transit. -/
def inTransitCount (ps : List Phase) : Nat :=
  (ps.filter (fun p => p = Phase.inTransit)).length

/-- Initial gate state for `n` scheduled workers:
`upload_semaphore = asyncio.Semaphore(MAX_CONCURRENT_UPLOADS)` (line 39). -/
def initSched (n : Nat) : SchedState :=
  { sem := MAX_CONCURRENT_UPLOADS, phases := List.replicate n .idle }

/-- Interleaving semantics of the gated workers at `await`-granularity
(asyncio is cooperative: control only changes hands at an `await`):
* `start`: `async with upload_semaphore` admits worker `i` when a slot is
  free, decrementing the count; the worker is then in transit.
* `finish`: worker `i` reaches its terminal record and releases its slot.
  In the source the release (exit of `async with`) and the terminal status
  write are adjacent with no `await` between them — on the success path the
  `'completed'` update precedes the release inside the `async with`, and on
  the failure path the `except` block runs synchronously right after the
  unwinding release — so the pair is one atomic step of the interleaving. -/
inductive SchedStep : SchedState → SchedState → Prop
  | start (s : SchedState) (i : Nat) (h : s.phases[i]? = some .idle)
      (hs : 0 < s.sem) :
      SchedStep s { sem := s.sem - 1, phases := s.phases.set i .inTransit }
  | finish (s : SchedState) (i : Nat) (h : s.phases[i]? = some .inTransit) :
      SchedStep s { sem := s.sem + 1, phases := s.phases.set i .done }

/-- States reachable from the initial gate state for `n` workers. -/
inductive SchedReachable (n : Nat) : SchedState → Prop
  | init : SchedReachable n (initSched n)
  | step {s s' : SchedState} : SchedReachable n s → SchedStep s s' →
      SchedReachable n s'

/-- Worker writes applied in interleaving order to an initially empty files
dict (the dispatcher seeds `'files': {}`). -/
def applyWrites (ws : List (Filename × FileRecord)) : FilesMap :=
  ws.foldl (fun m w => filesSet m w.1 w.2) []

/-- Number of entries of a files dict under a given key. -/
def countKey (m : FilesMap) (n : Filename) : Nat :=
  (m.filter (fun p => p.1 = n)).length

/-- Records reachable for a batch whose scheduled workers use keys drawn
from `allowed`: starting from the empty dict, each write targets the
filename of some scheduled worker. -/
inductive BatchEvolves (allowed : List Filename) : FilesMap → Prop
  | init : BatchEvolves allowed []
  | write {m : FilesMap} (name : Filename) (r : FileRecord) :
      name ∈ allowed → BatchEvolves allowed m →
      BatchEvolves allowed (filesSet m name r)

/-! ### Association-list lemmas -/

theorem filesGet_filesSet_self (m : FilesMap) (k : Filename) (v : FileRecord) :
    filesGet (filesSet m k v) k = some v := by
  induction m with
  | nil => simp [filesSet, filesGet]
  | cons p rest ih =>
      by_cases h : p.1 = k
      · simp [filesSet, filesGet, h]
      · simp [filesSet, filesGet, h, ih]

theorem filesGet_filesSet_ne (m : FilesMap) (k k' : Filename) (v : FileRecord)
    (h : k' ≠ k) : filesGet (filesSet m k v) k' = filesGet m k' := by
  induction m with
  | nil => simp [filesSet, filesGet, h, Ne.symm h]
  | cons p rest ih =>
      by_cases hp : p.1 = k
      · subst hp
        simp [filesSet, filesGet, Ne.symm h]
      · by_cases hp' : p.1 = k'
        · simp [filesSet, filesGet, hp, hp', h]
        · simp [filesSet, filesGet, hp, hp', ih]

theorem filesKeys_filesSet (m : FilesMap) (k : Filename) (v : FileRecord) :
    filesKeys (filesSet m k v) =
      if k ∈ filesKeys m then filesKeys m else filesKeys m ++ [k] := by
  induction m with
  | nil => simp [filesSet, filesKeys]
  | cons p rest ih =>
      by_cases hp : p.1 = k
      · subst hp
        simp [filesSet, filesKeys]
      · have hset : filesSet (p :: rest) k v = (p.1, p.2) :: filesSet rest k v := by
          simp [filesSet, hp]
        have hkeys : filesKeys (p :: rest) = p.1 :: filesKeys rest := rfl
        by_cases hmem : k ∈ filesKeys rest
        · have h1 : k ∈ filesKeys (p :: rest) := by
            rw [hkeys]; exact List.mem_cons_of_mem _ hmem
          rw [hset, if_pos h1]
          show p.1 :: filesKeys (filesSet rest k v) = filesKeys (p :: rest)
          rw [ih, if_pos hmem, hkeys]
        · have h1 : k ∉ filesKeys (p :: rest) := by
            rw [hkeys]
            intro hc
            rcases List.mem_cons.mp hc with hc | hc
            · exact hp hc.symm
            · exact hmem hc
          rw [hset, if_neg h1]
          show p.1 :: filesKeys (filesSet rest k v) = filesKeys (p :: rest) ++ [k]
          rw [ih, if_neg hmem, hkeys]
          rfl

theorem mem_filesKeys_filesSet (m : FilesMap) (k n : Filename) (v : FileRecord) :
    n ∈ filesKeys (filesSet m k v) ↔ n = k ∨ n ∈ filesKeys m := by
  rw [filesKeys_filesSet]
  by_cases hmem : k ∈ filesKeys m
  · rw [if_pos hmem]
    constructor
    · exact fun h => Or.inr h
    · rintro (rfl | h)
      · exact hmem
      · exact h
  · rw [if_neg hmem]
    simp [List.mem_append, or_comm]

theorem nodup_filesKeys_filesSet (m : FilesMap) (k : Filename) (v : FileRecord)
    (h : (filesKeys m).Nodup) : (filesKeys (filesSet m k v)).Nodup := by
  rw [filesKeys_filesSet]
  by_cases hmem : k ∈ filesKeys m
  · simpa [hmem] using h
  · rw [if_neg hmem]
    refine List.Nodup.append h (List.nodup_singleton k) ?_
    intro a ha hb
    rw [List.mem_singleton] at hb
    subst hb
    exact hmem ha

theorem length_filesKeys (m : FilesMap) : (filesKeys m).length = m.length := by
  simp [filesKeys]

theorem tableGet_tableSet_self (t : StatusTable) (k : String) (b : Batch) :
    tableGet (tableSet t k b) k = some b := by
  induction t with
  | nil => simp [tableSet, tableGet]
  | cons p rest ih =>
      by_cases h : p.1 = k
      · simp [tableSet, tableGet, h]
      · simp [tableSet, tableGet, h, ih]

theorem tableGet_tableSet_ne (t : StatusTable) (k k' : String) (b : Batch)
    (h : k' ≠ k) : tableGet (tableSet t k b) k' = tableGet t k' := by
  induction t with
  | nil => simp [tableSet, tableGet, h, Ne.symm h]
  | cons p rest ih =>
      by_cases hp : p.1 = k
      · subst hp
        simp [tableSet, tableGet, Ne.symm h]
      · by_cases hp' : p.1 = k'
        · simp [tableSet, tableGet, hp, hp', h]
        · simp [tableSet, tableGet, hp, hp', ih]

theorem isSome_tableGet_tableSet (t : StatusTable) (k k' : String) (b : Batch) :
    (tableGet (tableSet t k b) k').isSome = true ↔
      k' = k ∨ (tableGet t k').isSome = true := by
  by_cases h : k' = k
  · subst h
    simp [tableGet_tableSet_self]
  · rw [tableGet_tableSet_ne t k k' b h]
    simp [h]

/-! ### Batch-evolution and counting lemmas -/

theorem BatchEvolves.keys_subset {allowed : List Filename} {m : FilesMap}
    (h : BatchEvolves allowed m) : ∀ n ∈ filesKeys m, n ∈ allowed := by
  induction h with
  | init => intro n hn; simp [filesKeys] at hn
  | write name r hname _ ih =>
      intro n hn
      rcases (mem_filesKeys_filesSet _ _ _ _).mp hn with rfl | hn
      · exact hname
      · exact ih n hn

theorem BatchEvolves.keys_nodup {allowed : List Filename} {m : FilesMap}
    (h : BatchEvolves allowed m) : (filesKeys m).Nodup := by
  induction h with
  | init => simp [filesKeys]
  | write name r _ _ ih => exact nodup_filesKeys_filesSet _ _ _ ih

theorem countStatus_add_le_length (m : FilesMap) :
    countStatus m .completed + countStatus m .failed ≤ m.length := by
  induction m with
  | nil => simp [countStatus]
  | cons p rest ih =>
      cases hs : p.2.status <;>
        simp [countStatus, List.filter_cons, hs] at ih ⊢ <;> omega

theorem nodup_subset_length_le {α : Type} [DecidableEq α] {l1 l2 : List α}
    (h1 : l1.Nodup) (h2 : ∀ a ∈ l1, a ∈ l2) : l1.length ≤ l2.length := by
  calc l1.length = l1.toFinset.card := (List.toFinset_card_of_nodup h1).symm
    _ ≤ l2.toFinset.card := Finset.card_le_card (fun a ha => by
        rw [List.mem_toFinset] at ha ⊢
        exact h2 a ha)
    _ ≤ l2.length := l2.toFinset_card_le

theorem length_filter_add_length_filter_not {α : Type} (l : List α) (p : α → Bool) :
    (l.filter p).length + (l.filter (fun a => !p a)).length = l.length := by
  induction l with
  | nil => rfl
  | cons a rest ih =>
      cases hp : p a <;> simp [List.filter_cons, hp] <;> omega

/-! ### Table-trace lemmas -/

theorem applyCall_upload_eq (t : StatusTable) (files : List UploadFileIn)
    (now : Nat) :
    applyCall t (.upload files now) =
      tableSet t (genUploadId now)
        { total_files := files.length, start_time := now, files := [] } := rfl

theorem applyCall_statusQuery_eq (t : StatusTable) (qid : String) :
    applyCall t (.statusQuery qid) = t := rfl

theorem applyCall_workerWrite_eq (t : StatusTable) (wid : String)
    (name : Filename) (r : FileRecord) :
    applyCall t (.workerWrite wid name r) =
      match tableGet t wid with
      | none => t
      | some b => tableSet t wid { b with files := filesSet b.files name r } := rfl

theorem createdIds_cons_upload (files : List UploadFileIn) (now : Nat)
    (rest : List ApiCall) :
    createdIds (.upload files now :: rest) = genUploadId now :: createdIds rest := rfl

theorem createdIds_cons_statusQuery (qid : String) (rest : List ApiCall) :
    createdIds (.statusQuery qid :: rest) = createdIds rest := rfl

theorem createdIds_cons_workerWrite (wid : String) (name : Filename)
    (r : FileRecord) (rest : List ApiCall) :
    createdIds (.workerWrite wid name r :: rest) = createdIds rest := rfl

theorem applyCall_workerWrite_isSome (t : StatusTable) (wid : String)
    (name : Filename) (r : FileRecord) (id : String) :
    (tableGet (applyCall t (.workerWrite wid name r)) id).isSome =
      (tableGet t id).isSome := by
  rw [applyCall_workerWrite_eq]
  cases htw : tableGet t wid with
  | none => rfl
  | some b =>
      by_cases hid : id = wid
      · subst hid
        rw [tableGet_tableSet_self]
        simp [htw]
      · rw [tableGet_tableSet_ne _ _ _ _ hid]

theorem isSome_tableGet_foldl (calls : List ApiCall) (t : StatusTable) (id : String) :
    (tableGet (List.foldl applyCall t calls) id).isSome = true ↔
      id ∈ createdIds calls ∨ (tableGet t id).isSome = true := by
  induction calls generalizing t with
  | nil => simp [createdIds]
  | cons c rest ih =>
      rw [List.foldl_cons, ih]
      cases c with
      | upload files now =>
          rw [createdIds_cons_upload, applyCall_upload_eq,
            isSome_tableGet_tableSet, List.mem_cons]
          tauto
      | statusQuery qid =>
          rw [createdIds_cons_statusQuery, applyCall_statusQuery_eq]
      | workerWrite wid name r =>
          rw [createdIds_cons_workerWrite, applyCall_workerWrite_isSome]

/-! ### Last-write lemmas -/

theorem filesGet_foldl_filesSet (ws : List (Filename × FileRecord))
    (m : FilesMap) (n : Filename) :
    filesGet (ws.foldl (fun m w => filesSet m w.1 w.2) m) n =
      match ws.reverse.find? (fun w => decide (w.1 = n)) with
      | some w => some w.2
      | none => filesGet m n := by
  induction ws generalizing m with
  | nil => simp
  | cons w rest ih =>
      rw [List.foldl_cons, ih]
      rw [List.reverse_cons, List.find?_append]
      cases hfind : rest.reverse.find? (fun w => decide (w.1 = n)) with
      | some w' => simp [hfind, Option.orElse]
      | none =>
          by_cases hw : w.1 = n
          · subst hw
            simp [hfind, List.find?, Option.orElse, filesGet_filesSet_self]
          · simp [hfind, List.find?, hw, Option.orElse,
              filesGet_filesSet_ne m w.1 n w.2 (fun hc => hw hc.symm)]

theorem countKey_eq_count_filesKeys (m : FilesMap) (n : Filename) :
    countKey m n = (filesKeys m).count n := by
  induction m with
  | nil => rfl
  | cons p rest ih =>
      by_cases hp : p.1 = n
      · simp [countKey, filesKeys, List.filter_cons, List.count_cons, hp] at ih ⊢
        omega
      · simp [countKey, filesKeys, List.filter_cons, List.count_cons, hp] at ih ⊢
        exact ih

theorem mem_filesKeys_foldl (ws : List (Filename × FileRecord)) (m : FilesMap)
    (n : Filename) :
    n ∈ filesKeys (ws.foldl (fun m w => filesSet m w.1 w.2) m) ↔
      n ∈ ws.map Prod.fst ∨ n ∈ filesKeys m := by
  induction ws generalizing m with
  | nil => simp
  | cons w rest ih =>
      rw [List.foldl_cons, ih]
      simp [mem_filesKeys_filesSet, List.mem_map]
      tauto

theorem nodup_filesKeys_foldl (ws : List (Filename × FileRecord)) (m : FilesMap)
    (h : (filesKeys m).Nodup) :
    (filesKeys (ws.foldl (fun m w => filesSet m w.1 w.2) m)).Nodup := by
  induction ws generalizing m with
  | nil => exact h
  | cons w rest ih =>
      rw [List.foldl_cons]
      exact ih _ (nodup_filesKeys_filesSet _ _ _ h)

/-! ### Gate-invariant lemmas -/

theorem inTransitCount_set (ps : List Phase) (i : Nat) (a b : Phase)
    (h : ps[i]? = some a) :
    inTransitCount (ps.set i b) + (if a = Phase.inTransit then 1 else 0) =
      inTransitCount ps + (if b = Phase.inTransit then 1 else 0) := by
  induction ps generalizing i with
  | nil => simp at h
  | cons p rest ih =>
      cases i with
      | zero =>
          simp at h
          subst h
          simp only [List.set_cons_zero, inTransitCount, List.filter_cons,
            decide_eq_true_eq, apply_ite List.length, List.length_cons]
          split_ifs <;> omega
      | succ j =>
          simp at h
          have hrec := ih j h
          simp only [List.set_cons_succ, inTransitCount, List.filter_cons,
            decide_eq_true_eq, apply_ite List.length, List.length_cons]
            at hrec ⊢
          split_ifs at hrec ⊢ <;> omega

theorem inTransitCount_replicate_idle (n : Nat) :
    inTransitCount (List.replicate n Phase.idle) = 0 := by
  simp [inTransitCount]

/-- The gate invariant: free slots plus in-transit workers is always exactly
the configured cap. -/
def SchedInv (s : SchedState) : Prop :=
  s.sem + inTransitCount s.phases = MAX_CONCURRENT_UPLOADS

theorem schedInv_init (n : Nat) : SchedInv (initSched n) := by
  simp [SchedInv, initSched, inTransitCount_replicate_idle]

theorem schedInv_step {s s' : SchedState} (hs : SchedInv s) (h : SchedStep s s') :
    SchedInv s' := by
  have hs3 : s.sem + inTransitCount s.phases = 3 := hs
  cases h with
  | start i hget hsem =>
      have hc := inTransitCount_set s.phases i Phase.idle Phase.inTransit hget
      simp at hc
      show s.sem - 1 + inTransitCount (s.phases.set i Phase.inTransit) = 3
      omega
  | finish i hget =>
      have hc := inTransitCount_set s.phases i Phase.inTransit Phase.done hget
      simp at hc
      show s.sem + 1 + inTransitCount (s.phases.set i Phase.done) = 3
      omega

theorem schedInv_reachable {n : Nat} {s : SchedState} (h : SchedReachable n s) :
    SchedInv s := by
  induction h with
  | init => exact schedInv_init n
  | step _ hstep ih => exact schedInv_step ih hstep

theorem countKey_cons (p : Filename × FileRecord) (rest : FilesMap)
    (n : Filename) :
    countKey (p :: rest) n = (if p.1 = n then 1 else 0) + countKey rest n := by
  simp only [countKey, List.filter_cons, decide_eq_true_eq,
    apply_ite List.length, List.length_cons]
  split_ifs <;> omega

theorem countKey_eq_zero_of_not_mem (m : FilesMap) (n : Filename)
    (h : n ∉ filesKeys m) : countKey m n = 0 := by
  induction m with
  | nil => rfl
  | cons p rest ih =>
      rw [countKey_cons]
      have h1 : n ∉ filesKeys rest := by
        intro hc
        exact h (List.mem_cons_of_mem _ hc)
      have h2 : ¬p.1 = n := by
        intro hc
        refine h ?_
        show n ∈ p.1 :: filesKeys rest
        rw [hc]
        exact List.mem_cons_self _ _
      rw [if_neg h2, ih h1]

theorem countKey_eq_one_of_nodup (m : FilesMap) (n : Filename)
    (hnd : (filesKeys m).Nodup) (hmem : n ∈ filesKeys m) : countKey m n = 1 := by
  induction m with
  | nil => simp [filesKeys] at hmem
  | cons p rest ih =>
      have hcons : (p.1 :: filesKeys rest).Nodup := hnd
      have hnd1 := (List.nodup_cons.mp hcons).2
      have hnotin := (List.nodup_cons.mp hcons).1
      rw [countKey_cons]
      by_cases hp : p.1 = n
      · rw [if_pos hp]
        subst hp
        rw [countKey_eq_zero_of_not_mem rest p.1 hnotin]
      · rw [if_neg hp]
        have hm1 : n ∈ filesKeys rest := by
          have hmm : n ∈ p.1 :: filesKeys rest := hmem
          rcases List.mem_cons.mp hmm with hc | hc
          · exact absurd hc.symm hp
          · exact hc
        simp [ih hnd1 hm1]

/-! ### Concrete fixtures for witnesses -/

def demoFileA : UploadFileIn :=
  { filename := some "a.txt", content_type := some "text/plain", size := 1024 }

def demoFileB : UploadFileIn :=
  { filename := some "b.txt", content_type := none, size := 2048 }

def demoRecA : FileRecord :=
  { status := .completed, start_time := 100, end_time := some 101, error := none }

def demoRecFail : FileRecord :=
  { status := .failed, start_time := 100, end_time := some 102,
    error := some "AccessDenied" }

def demoBatch : Batch :=
  { total_files := 3, start_time := 100,
    files := [(some "a.txt", demoRecA), (some "b.txt", demoRecFail)] }

def demoTable : StatusTable := [("20240101_120000", demoBatch)]

def demoCalls : List ApiCall := [.upload [demoFileA] 100, .statusQuery "999"]

/-! ### Claim theorems -/

/-- C1: for every batch id present in the status table, `get_upload_status`
returns completed = the number of records with status completed, failed = the
number with status failed, and in_progress = total_files − (completed +
failed), so completed + failed + in_progress always equals total_files. -/
theorem status_counts_consistent (table : StatusTable) (id : String) (b : Batch)
    (h : tableGet table id = some b) :
    get_upload_status table id = .ok
      { upload_id := id
        total_files := b.total_files
        completed := countStatus b.files .completed
        failed := countStatus b.files .failed
        in_progress := (b.total_files : Int) -
          ((countStatus b.files .completed : Int) +
            (countStatus b.files .failed : Int))
        files := b.files } ∧
    (countStatus b.files .completed : Int) + (countStatus b.files .failed : Int) +
        ((b.total_files : Int) -
          ((countStatus b.files .completed : Int) +
            (countStatus b.files .failed : Int))) =
      (b.total_files : Int) := by
  constructor
  · unfold get_upload_status
    rw [h]
  · ring

/-- C1 witness at a concrete table: the demo batch reports one completed and
one failed record out of three total, and the counts balance. -/
theorem status_counts_consistent_witness :
    countStatus demoBatch.files .completed = 1 ∧
    countStatus demoBatch.files .failed = 1 ∧
    (get_upload_status demoTable "20240101_120000" = .ok
      { upload_id := "20240101_120000"
        total_files := demoBatch.total_files
        completed := countStatus demoBatch.files .completed
        failed := countStatus demoBatch.files .failed
        in_progress := (demoBatch.total_files : Int) -
          ((countStatus demoBatch.files .completed : Int) +
            (countStatus demoBatch.files .failed : Int))
        files := demoBatch.files } ∧
    (countStatus demoBatch.files .completed : Int) +
        (countStatus demoBatch.files .failed : Int) +
        ((demoBatch.total_files : Int) -
          ((countStatus demoBatch.files .completed : Int) +
            (countStatus demoBatch.files .failed : Int))) =
      (demoBatch.total_files : Int)) :=
  ⟨by decide, by decide,
   status_counts_consistent demoTable "20240101_120000" demoBatch (by decide)⟩

/-- C3: polling an id that no dispatch ever created fails with 404 and detail
"Upload ID not found", deterministically, whatever the prior call sequence;
polling a created id never yields that 404. -/
theorem status_lookup_notfound_iff (calls : List ApiCall) (id : String) :
    (id ∉ createdIds calls →
      get_upload_status (runCalls calls) id =
        .error (404, "Upload ID not found")) ∧
    (id ∈ createdIds calls →
      ∃ resp, get_upload_status (runCalls calls) id = .ok resp) := by
  have hiff : (tableGet (runCalls calls) id).isSome = true ↔
      id ∈ createdIds calls := by
    have h0 := isSome_tableGet_foldl calls [] id
    simp only [tableGet, Option.isSome_none, Bool.false_eq_true, or_false] at h0
    exact h0
  constructor
  · intro hnot
    have hnone : tableGet (runCalls calls) id = none := by
      rw [← Option.not_isSome_iff_eq_none]
      intro hs
      exact hnot (hiff.mp hs)
    unfold get_upload_status
    rw [hnone]
  · intro hmem
    have hsome := hiff.mpr hmem
    rcases Option.isSome_iff_exists.mp hsome with ⟨b, hb⟩
    refine ⟨{ upload_id := id
              total_files := b.total_files
              completed := countStatus b.files .completed
              failed := countStatus b.files .failed
              in_progress := (b.total_files : Int) -
                ((countStatus b.files .completed : Int) +
                  (countStatus b.files .failed : Int))
              files := b.files }, ?_⟩
    unfold get_upload_status
    rw [hb]

/-- C3 witness: a created id resolves, a never-created id meets the 404. -/
theorem status_lookup_notfound_iff_witness :
    ("999" ∉ createdIds demoCalls ∧
      get_upload_status (runCalls demoCalls) "999" =
        .error (404, "Upload ID not found")) ∧
    (genUploadId 100 ∈ createdIds demoCalls ∧
      ∃ resp, get_upload_status (runCalls demoCalls) (genUploadId 100) =
        .ok resp) :=
  ⟨⟨by decide, (status_lookup_notfound_iff demoCalls "999").1 (by decide)⟩,
   ⟨by decide,
    (status_lookup_notfound_iff demoCalls (genUploadId 100)).2 (by decide)⟩⟩

/-- C7 counterexample: a record completed under the shared id before the
same-second collision is NOT readable afterwards — the colliding dispatch
replaces the whole entry with a fresh one whose files dict is empty, rather
than merging bookkeeping. -/
theorem collision_wipes_prior_records :
    tableGet (runCalls
        [.upload [demoFileA] 100,
         .workerWrite (genUploadId 100) (some "a.txt") demoRecA])
      (genUploadId 100) =
      some { total_files := 1, start_time := 100,
             files := [(some "a.txt", demoRecA)] } ∧
    tableGet (runCalls
        [.upload [demoFileA] 100,
         .workerWrite (genUploadId 100) (some "a.txt") demoRecA,
         .upload [demoFileB] 100])
      (genUploadId 100) =
      some { total_files := 1, start_time := 100, files := [] } := by
  constructor <;> decide

/-- C7 amended: when the dispatcher generates an id that already exists in
the table, the new dispatch replaces the prior batch's bookkeeping wholesale
— fresh total_files and an empty files dict, prior records lost; a prior
worker still running then writes into the new batch's dict. -/
theorem collision_replaces_batch (table : StatusTable)
    (files : List UploadFileIn) (now : Nat) (b : Batch)
    (_h : tableGet table (genUploadId now) = some b) :
    tableGet (upload_files table files now).table (genUploadId now) =
      some { total_files := files.length, start_time := now, files := [] } ∧
    ∀ (name : Filename) (r : FileRecord),
      tableGet (applyCall (upload_files table files now).table
          (.workerWrite (genUploadId now) name r)) (genUploadId now) =
        some { total_files := files.length, start_time := now,
               files := [(name, r)] } := by
  have h1 : tableGet (upload_files table files now).table (genUploadId now) =
      some { total_files := files.length, start_time := now, files := [] } :=
    tableGet_tableSet_self table (genUploadId now) _
  refine ⟨h1, ?_⟩
  intro name r
  rw [applyCall_workerWrite_eq, h1]
  exact tableGet_tableSet_self _ (genUploadId now) _

/-- C7 amended witness at a concrete colliding dispatch. -/
theorem collision_replaces_batch_witness :
    tableGet [(genUploadId 100, demoBatch)] (genUploadId 100) = some demoBatch ∧
    (tableGet (upload_files [(genUploadId 100, demoBatch)] [demoFileB] 100).table
        (genUploadId 100) =
      some { total_files := [demoFileB].length, start_time := 100, files := [] } ∧
    ∀ (name : Filename) (r : FileRecord),
      tableGet (applyCall
          (upload_files [(genUploadId 100, demoBatch)] [demoFileB] 100).table
          (.workerWrite (genUploadId 100) name r)) (genUploadId 100) =
        some { total_files := [demoFileB].length, start_time := 100,
               files := [(name, r)] }) :=
  ⟨by decide,
   collision_replaces_batch [(genUploadId 100, demoBatch)] [demoFileB] 100
     demoBatch (by decide)⟩

/-- C4: files with a falsy (empty or missing) filename are skipped by the
dispatcher: never scheduled, never keyed in the batch's files dict, with the
normal success response still returned; yet total_files counts them, so the
batch keeps a permanently positive in_progress residue. -/
theorem empty_filename_skipped (table : StatusTable) (files : List UploadFileIn)
    (now : Nat) (m : FilesMap)
    (hev : BatchEvolves (scheduledNames files) m)
    (f0 : UploadFileIn) (hf0 : f0 ∈ files)
    (hfalsy : pyFalsyName f0.filename = true) :
    (∀ f ∈ files, pyFalsyName f.filename = true →
        f ∉ (upload_files table files now).scheduled) ∧
    (∀ f ∈ files, pyFalsyName f.filename = true → f.filename ∉ filesKeys m) ∧
    tableGet (upload_files table files now).table (genUploadId now) =
      some { total_files := files.length, start_time := now, files := [] } ∧
    (upload_files table files now).response =
      { message := "Processing " ++ toString files.length ++ " files"
        upload_id := genUploadId now
        status_endpoint := "/status/" ++ genUploadId now } ∧
    0 < (files.length : Int) -
        ((countStatus m .completed : Int) + (countStatus m .failed : Int)) := by
  have hnotin : ∀ f ∈ files, pyFalsyName f.filename = true →
      f.filename ∉ scheduledNames files := by
    intro f _ hfal hmem
    rcases List.mem_map.mp hmem with ⟨g, hg, hgf⟩
    have hgkeep := (List.mem_filter.mp hg).2
    rw [hgf, hfal] at hgkeep
    simp at hgkeep
  refine ⟨?_, ?_, tableGet_tableSet_self table (genUploadId now) _, rfl, ?_⟩
  · intro f hf hfal hsched
    have hkeep := (List.mem_filter.mp hsched).2
    rw [hfal] at hkeep
    simp at hkeep
  · intro f hf hfal hkey
    exact hnotin f hf hfal (hev.keys_subset f.filename hkey)
  · have hcount : countStatus m .completed + countStatus m .failed ≤ m.length :=
      countStatus_add_le_length m
    have hkeys : m.length = (filesKeys m).length := (length_filesKeys m).symm
    have hsub : (filesKeys m).length ≤ (scheduledNames files).length :=
      nodup_subset_length_le hev.keys_nodup hev.keys_subset
    have hlen : (scheduledNames files).length = (scheduledWorkers files).length :=
      List.length_map _ _
    have hsplit := length_filter_add_length_filter_not files
      (fun f => pyFalsyName f.filename)
    have hone : 0 < (files.filter (fun f => pyFalsyName f.filename)).length :=
      List.length_pos_of_mem (List.mem_filter.mpr ⟨hf0, hfalsy⟩)
    have hsched : (scheduledWorkers files).length =
        (files.filter (fun f => !pyFalsyName f.filename)).length := rfl
    omega

/-- C4 witness: a batch of one empty-named and one real file, after the real
file's worker completed, still reports a positive residue. -/
theorem empty_filename_skipped_witness :
    (∀ f ∈ [{ filename := some "", content_type := none, size := 5 : UploadFileIn},
            demoFileA],
        pyFalsyName f.filename = true →
          f ∉ (upload_files demoTable
                [{ filename := some "", content_type := none, size := 5 :
                    UploadFileIn}, demoFileA] 100).scheduled) ∧
    (∀ f ∈ [{ filename := some "", content_type := none, size := 5 : UploadFileIn},
            demoFileA],
        pyFalsyName f.filename = true →
          f.filename ∉ filesKeys (filesSet [] (some "a.txt") demoRecA)) ∧
    tableGet (upload_files demoTable
        [{ filename := some "", content_type := none, size := 5 : UploadFileIn},
         demoFileA] 100).table (genUploadId 100) =
      some { total_files := 2, start_time := 100, files := [] } ∧
    (upload_files demoTable
        [{ filename := some "", content_type := none, size := 5 : UploadFileIn},
         demoFileA] 100).response =
      { message := "Processing " ++ toString (2 : Nat) ++ " files"
        upload_id := genUploadId 100
        status_endpoint := "/status/" ++ genUploadId 100 } ∧
    0 < ((2 : Nat) : Int) -
        ((countStatus (filesSet [] (some "a.txt") demoRecA) .completed : Int) +
          (countStatus (filesSet [] (some "a.txt") demoRecA) .failed : Int)) :=
  empty_filename_skipped demoTable
    [{ filename := some "", content_type := none, size := 5 }, demoFileA] 100
    (filesSet [] (some "a.txt") demoRecA)
    (BatchEvolves.write (some "a.txt") demoRecA (by decide) BatchEvolves.init)
    { filename := some "", content_type := none, size := 5 }
    (by decide) (by decide)

/-- C8: within a batch, filename keys stay unique: once some worker has
written under a name, exactly one record exists for that name, and it is the
record of whichever worker wrote last. -/
theorem duplicate_names_last_write_wins (ws : List (Filename × FileRecord))
    (n : Filename) (hn : n ∈ ws.map Prod.fst) :
    countKey (applyWrites ws) n = 1 ∧
    filesGet (applyWrites ws) n =
      (ws.reverse.find? (fun w => decide (w.1 = n))).map Prod.snd := by
  constructor
  · have hnodup : (filesKeys (applyWrites ws)).Nodup :=
      nodup_filesKeys_foldl ws [] (by simp [filesKeys])
    have hmem : n ∈ filesKeys (applyWrites ws) := by
      rw [applyWrites, mem_filesKeys_foldl]
      exact Or.inl hn
    exact countKey_eq_one_of_nodup _ n hnodup hmem
  · rw [applyWrites, filesGet_foldl_filesSet]
    cases ws.reverse.find? (fun w => decide (w.1 = n)) with
    | none => rfl
    | some w => rfl

/-- C8 witness: two writes under the same name leave exactly one record,
the later one. -/
theorem duplicate_names_last_write_wins_witness :
    countKey (applyWrites [(some "x.txt", demoRecA), (some "x.txt", demoRecFail)])
        (some "x.txt") = 1 ∧
    filesGet (applyWrites [(some "x.txt", demoRecA), (some "x.txt", demoRecFail)])
        (some "x.txt") =
      ([(some "x.txt", demoRecA), (some "x.txt", demoRecFail)].reverse.find?
          (fun w => decide (w.1 = some "x.txt"))).map Prod.snd :=
  duplicate_names_last_write_wins
    [(some "x.txt", demoRecA), (some "x.txt", demoRecFail)]
    (some "x.txt") (by decide)

/-- C5: in every state reachable under the gate protocol — `asyncio.Semaphore(3)`
acquired around the whole buffering-and-transfer body, released together with
the terminal record write — at most `MAX_CONCURRENT_UPLOADS = 3` workers are in
transit at any instant, for any number of scheduled workers. -/
theorem gate_bounds_in_transit (n : Nat) (s : SchedState)
    (h : SchedReachable n s) :
    inTransitCount s.phases ≤ MAX_CONCURRENT_UPLOADS := by
  have hinv : s.sem + inTransitCount s.phases = 3 := schedInv_reachable h
  show inTransitCount s.phases ≤ 3
  omega

/-- A two-step schedule: out of three workers, two have been admitted. -/
theorem demoSched_reachable :
    SchedReachable 3
      { sem := 1, phases := [Phase.inTransit, Phase.inTransit, Phase.idle] } :=
  SchedReachable.step
    (SchedReachable.step SchedReachable.init
      (SchedStep.start (initSched 3) 0 rfl (by decide)))
    (SchedStep.start
      { sem := 2, phases := [Phase.inTransit, Phase.idle, Phase.idle] } 1 rfl
      (by decide))

/-- C5 witness at a concrete reachable state with two workers in transit. -/
theorem gate_bounds_in_transit_witness :
    SchedReachable 3
      { sem := 1, phases := [Phase.inTransit, Phase.inTransit, Phase.idle] } ∧
    inTransitCount
        ({ sem := 1,
           phases := [Phase.inTransit, Phase.inTransit, Phase.idle] } :
          SchedState).phases ≤
      MAX_CONCURRENT_UPLOADS :=
  ⟨demoSched_reachable,
   gate_bounds_in_transit 3 _ demoSched_reachable⟩


/-- Modelled from the spec: the size-rejection policy as the spec states it —
every file whose declared size exceeds the limit is never passed to the store
client and its record always ends failed. The code contains no size check, so
this predicate is stated from the spec's words in order to be settled. -/
def sizeRejectionClaim : Prop :=
  ∀ (file : UploadFileIn) (uid : String) (fb : FilesMap) (t1 t2 : Nat)
    (sc : WorkerScenario),
    MAX_FILE_SIZE_SPEC < file.size →
      storePuts (process_upload file uid fb t1 t2 sc).events = [] ∧
      ∀ r, filesGet (process_upload file uid fb t1 t2 sc).filesAfter
          file.filename = some r → r.status = .failed

/-- C2 counterexample: a file one byte over 50 MiB, in the run where every
operation succeeds, IS passed to the store and its record ends completed —
`process_upload` never consults the declared size. -/
theorem no_size_limit_counterexample : ¬ sizeRejectionClaim := by
  intro h
  have hbig : MAX_FILE_SIZE_SPEC < (52428801 : Nat) := by
    norm_num [MAX_FILE_SIZE_SPEC]
  have hc := h { filename := some "big.bin", content_type := some "video/mp4",
                 size := 52428801 } "20240101_120000" [] 0 1 .ok hbig
  have hput := hc.1
  simp [process_upload, storePuts] at hput

/-- C2 amended: the worker performs no size-based rejection — for every file
whose declared size exceeds the 50 MiB limit, the successful run still invokes
the store exactly once with the file's key and declared content type, and the
record ends completed, not failed. -/
theorem oversized_file_still_uploaded (file : UploadFileIn) (uid : String)
    (fb : FilesMap) (t1 t2 : Nat) (_h : MAX_FILE_SIZE_SPEC < file.size) :
    storePuts (process_upload file uid fb t1 t2 .ok).events =
      [(s3Key uid file.filename, effectiveContentType file.content_type)] ∧
    filesGet (process_upload file uid fb t1 t2 .ok).filesAfter file.filename =
      some { status := .completed, start_time := t1, end_time := some t2,
             error := none } := by
  constructor
  · simp [process_upload, storePuts]
  · show filesGet (filesSet (filesSet fb file.filename (uploadingRecord t1))
        file.filename
        { uploadingRecord t1 with status := .completed, end_time := some t2 })
        file.filename = _
    rw [filesGet_filesSet_self]
    rfl

/-- C2 amended witness at a concrete oversized file. -/
theorem oversized_file_still_uploaded_witness :
    MAX_FILE_SIZE_SPEC < (52428801 : Nat) ∧
    (storePuts (process_upload
        { filename := some "big.bin", content_type := some "video/mp4",
          size := 52428801 } "20240101_120000" [] 0 1 .ok).events =
      [(s3Key "20240101_120000" (some "big.bin"),
        effectiveContentType (some "video/mp4"))] ∧
    filesGet (process_upload
        { filename := some "big.bin", content_type := some "video/mp4",
          size := 52428801 } "20240101_120000" [] 0 1 .ok).filesAfter
        (some "big.bin") =
      some { status := .completed, start_time := 0, end_time := some 1,
             error := none }) :=
  ⟨by norm_num [MAX_FILE_SIZE_SPEC],
   oversized_file_still_uploaded
     { filename := some "big.bin", content_type := some "video/mp4",
       size := 52428801 } "20240101_120000" [] 0 1
     (by norm_num [MAX_FILE_SIZE_SPEC])⟩

/-- C6 evaluated at the failing input: when `file.read()` raises during
buffering — before the 'uploading' record of line 66 exists — the except
handler's own indexing `['files'][file.filename]` raises KeyError: no failed
record is written, and the exception escapes the worker instead of being
contained. -/
theorem buffering_exception_escapes_worker :
    process_upload demoFileA "20240101_120000" [] 0 1 (.readFails "disk full") =
      { events := [.acquire, .createTemp, .release, .unlinkTemp]
        filesAfter := []
        outcome := .raises "KeyError" } := by
  decide

/-- C9: on every exit path of the worker — success, store failure, or an
exception during buffering — the gate slot is released exactly once per
acquire, and whenever the transient buffer was created it is discarded. -/
theorem cleanup_on_every_exit (file : UploadFileIn) (uid : String)
    (fb : FilesMap) (t1 t2 : Nat) (sc : WorkerScenario) :
    (process_upload file uid fb t1 t2 sc).events.count .release = 1 ∧
    (process_upload file uid fb t1 t2 sc).events.count .acquire = 1 ∧
    (Event.createTemp ∈ (process_upload file uid fb t1 t2 sc).events →
      Event.unlinkTemp ∈ (process_upload file uid fb t1 t2 sc).events) := by
  cases sc with
  | ok => refine ⟨by simp [process_upload], by simp [process_upload], ?_⟩
          intro _
          simp [process_upload]
  | tempCreateFails msg =>
      cases hh : filesGet fb file.filename <;>
        simp [process_upload, handleFailure, hh]
  | readFails msg =>
      cases hh : filesGet fb file.filename <;>
        simp [process_upload, handleFailure, hh]
  | writeFails msg =>
      cases hh : filesGet fb file.filename <;>
        simp [process_upload, handleFailure, hh]
  | storeFails msg =>
      refine ⟨?_, ?_, ?_⟩ <;>
        simp [process_upload, handleFailure, filesGet_filesSet_self]

/-- C9 witness at the successful scenario of a concrete file. -/
theorem cleanup_on_every_exit_witness :
    (process_upload demoFileA "20240101_120000" [] 0 1 .ok).events.count
        .release = 1 ∧
    (process_upload demoFileA "20240101_120000" [] 0 1 .ok).events.count
        .acquire = 1 ∧
    Event.createTemp ∈ (process_upload demoFileA "20240101_120000" [] 0 1
        .ok).events ∧
    Event.unlinkTemp ∈ (process_upload demoFileA "20240101_120000" [] 0 1
        .ok).events :=
  ⟨(cleanup_on_every_exit demoFileA "20240101_120000" [] 0 1 .ok).1,
   (cleanup_on_every_exit demoFileA "20240101_120000" [] 0 1 .ok).2.1,
   by decide,
   (cleanup_on_every_exit demoFileA "20240101_120000" [] 0 1 .ok).2.2
     (by decide)⟩

/-- C10: the store put is invoked with exactly the declared content type, with
'application/octet-stream' substituted when the declared one is missing
(None) or empty. -/
theorem content_type_defaulting (file : UploadFileIn) (uid : String)
    (fb : FilesMap) (t1 t2 : Nat) :
    storePuts (process_upload file uid fb t1 t2 .ok).events =
      [(s3Key uid file.filename,
        match file.content_type with
        | none => "application/octet-stream"
        | some s => if s = "" then "application/octet-stream" else s)] := by
  have hct : (match file.content_type with
      | none => "application/octet-stream"
      | some s => if s = "" then "application/octet-stream" else s) =
      effectiveContentType file.content_type := by
    cases file.content_type <;> rfl
  rw [hct]
  simp [process_upload, storePuts]

end S3Upload
